import Mathlib

/-!
Verification of the multithreaded file-content search utility of the
System-Agent repository (`src/system_agent/tools/file.py` and the
`__search_string_in_files_wrapper` of `src/system_agent/agent.py`).

File contents are modelled as lists of byte values (`bytes` objects in the
source).  Paths are modelled as lists of components; the filesystem seen by
`os.walk` is modelled as a tree of `Entry` values.  Python functions whose
result depends on the ambient filesystem or process state
(`os.path.relpath`, `FileManager._normalize_path`, `os.path.exists`,
`json.loads`) are threaded through as explicit function parameters.
-/

namespace SystemAgent

/-- A byte of file content; values are 0..255. -/
abbrev Byte := Nat

/-- Python `bytes.lower()`: ASCII-lowercase every byte (`A`..`Z`, i.e.
65..90, become `a`..`z`, i.e. 97..122; all other bytes are unchanged). -/
def bytesLower (content : List Byte) : List Byte :=
  content.map (fun b => if 65 ≤ b ∧ b ≤ 90 then b + 32 else b)

/-- Whether `pat` occurs in `content` starting at index `i`; this is the
Python slice comparison `content[i:i+len(pat)] == pat`. -/
def matchesAt (content pat : List Byte) (i : Nat) : Bool :=
  (content.drop i).take pat.length == pat

/-- Python `content.find(pat, start)`: the least index `i ≥ start` at which
`pat` occurs in `content`, or `none` where Python returns `-1`. -/
def bytesFind (content pat : List Byte) (start : Nat) : Option Nat :=
  (List.range' start (content.length + 1 - start)).find? (fun i => matchesAt content pat i)

/-- Python `content.find(bytes([b]), start)` for a single byte: the first
index `i ≥ start` whose byte is `b`. -/
def findByteFrom (content : List Byte) (b : Byte) (start : Nat) : Option Nat :=
  (List.range' start (content.length - start)).find? (fun i => (content.drop i).head? == some b)

/-- Python `content.rfind(bytes([b]), 0, endIdx)` for a single byte: the
last index `i < endIdx` whose byte is `b`, or `none` where Python
returns `-1`. -/
def rfindByteBefore (content : List Byte) (b : Byte) (endIdx : Nat) : Option Nat :=
  ((List.range' 0 (min endIdx content.length)).filter
    (fun i => (content.drop i).head? == some b)).getLast?

/-- `line_start = content.rfind(b"\n", 0, pos) + 1` from both scan
strategies (Python's `-1` for "not found" makes this `0`). -/
def lineStartOf (content : List Byte) (pos : Nat) : Nat :=
  match rfindByteBefore content 10 pos with
  | some i => i + 1
  | none => 0

/-- `line_end = content.find(b"\n", pos)`, replaced by `len(content)` when
there is no further newline, from both scan strategies. -/
def lineEndOf (content : List Byte) (pos : Nat) : Nat :=
  match findByteFrom content 10 pos with
  | some i => i
  | none => content.length

/-- `line_number = content[:pos].count(b"\n") + 1` from both scan
strategies. -/
def lineNumberOf (content : List Byte) (pos : Nat) : Nat :=
  (content.take pos).count 10 + 1

/-- Whether a byte is a UTF-8 continuation byte (`0x80`..`0xBF`). -/
def isContinuationByte (b : Byte) : Bool :=
  128 ≤ b ∧ b ≤ 191

/-- Valid second byte of a three-byte UTF-8 sequence headed by `b0`
(this excludes overlong encodings and surrogate code points). -/
def validThreeByteTail (b0 b1 : Byte) : Bool :=
  (b0 == 224 && (160 ≤ b1 ∧ b1 ≤ 191)) ||
  (225 ≤ b0 ∧ b0 ≤ 236) && isContinuationByte b1 ||
  (b0 == 237 && (128 ≤ b1 ∧ b1 ≤ 159)) ||
  (238 ≤ b0 ∧ b0 ≤ 239) && isContinuationByte b1

/-- Valid second byte of a four-byte UTF-8 sequence headed by `b0`
(this excludes overlong encodings and code points above `0x10FFFF`). -/
def validFourByteTail (b0 b1 : Byte) : Bool :=
  (b0 == 240 && (144 ≤ b1 ∧ b1 ≤ 191)) ||
  (241 ≤ b0 ∧ b0 ≤ 243) && isContinuationByte b1 ||
  (b0 == 244 && (128 ≤ b1 ∧ b1 ≤ 143))

/-- Python `bytes.decode("utf-8", errors="ignore")`: decode each valid
UTF-8 sequence, dropping undecodable bytes.  (The codec drops an invalid
maximal subpart as a unit; since continuation bytes can never start a valid
sequence, dropping undecodable bytes one at a time, as done here, yields
the same character sequence.) -/
def decodeUtf8Ignore : List Byte → List Char
  | [] => []
  | b0 :: t0 =>
    let dropHead := decodeUtf8Ignore t0
    if b0 ≤ 127 then
      Char.ofNat b0 :: dropHead
    else if 194 ≤ b0 ∧ b0 ≤ 223 then
      match t0 with
      | b1 :: t1 =>
        if isContinuationByte b1 then
          Char.ofNat ((b0 - 192) * 64 + (b1 - 128)) :: decodeUtf8Ignore t1
        else
          dropHead
      | [] => []
    else if 224 ≤ b0 ∧ b0 ≤ 239 then
      match t0 with
      | b1 :: b2 :: t2 =>
        if validThreeByteTail b0 b1 ∧ isContinuationByte b2 then
          Char.ofNat ((b0 - 224) * 4096 + (b1 - 128) * 64 + (b2 - 128)) :: decodeUtf8Ignore t2
        else
          dropHead
      | _ => dropHead
    else if 240 ≤ b0 ∧ b0 ≤ 244 then
      match t0 with
      | b1 :: b2 :: b3 :: t3 =>
        if validFourByteTail b0 b1 ∧ isContinuationByte b2 ∧ isContinuationByte b3 then
          Char.ofNat ((b0 - 240) * 262144 + (b1 - 128) * 4096 + (b2 - 128) * 64 + (b3 - 128))
            :: decodeUtf8Ignore t3
        else
          dropHead
      | _ => dropHead
    else
      dropHead

/-- Python `bytes.decode("utf-8", errors="ignore")` packaged as a string. -/
def decodeStr (content : List Byte) : String :=
  String.mk (decodeUtf8Ignore content)

/-- Python `str.isspace` characters (the whitespace set used by
`str.strip()` with no argument). -/
def pyIsSpace (c : Char) : Bool :=
  c.toNat ∈ [9, 10, 11, 12, 13, 28, 29, 30, 31, 32, 133, 160, 5760,
    8192, 8193, 8194, 8195, 8196, 8197, 8198, 8199, 8200, 8201, 8202,
    8232, 8233, 8239, 8287, 12288]

/-- Python `str.strip()`: remove leading and trailing whitespace. -/
def pyStrip (s : String) : String :=
  String.mk (((s.data.dropWhile pyIsSpace).reverse.dropWhile pyIsSpace).reverse)

/-- Python `str.lower()` restricted to the alphabets that occur in this
development (ASCII letters); every pattern and name the repository compares
is ASCII. -/
def strLower (s : String) : String :=
  String.mk (s.data.map Char.toLower)

/-- The `line_content` computation shared by both scan strategies:
`content[line_start:line_end].decode("utf-8", errors="ignore").strip()`,
evaluated on the buffer the strategy slices from. -/
def lineContentOf (content : List Byte) (pos : Nat) : String :=
  pyStrip (decodeStr ((content.take (lineEndOf content pos)).drop (lineStartOf content pos)))

/-- UTF-8 encoding of one character (Lean chars are never surrogates, so
`str.encode("utf-8", errors="ignore")` never drops anything). -/
def encodeChar (c : Char) : List Byte :=
  let n := c.toNat
  if n < 128 then [n]
  else if n < 2048 then [192 + n / 64, 128 + n % 64]
  else if n < 65536 then [224 + n / 4096, 128 + (n / 64) % 64, 128 + n % 64]
  else [240 + n / 262144, 128 + (n / 4096) % 64, 128 + (n / 64) % 64, 128 + n % 64]

/-- Python `search_string.encode("utf-8", errors="ignore")`. -/
def encodeUtf8 (s : String) : List Byte :=
  (s.data.map encodeChar).flatten

/-- One search hit, as built by `_search_with_mmap` / `_search_with_read`
(a Python dict with keys `file_path`, `line_number`, `line_content`,
`relative_path`). -/
structure Occurrence where
  file_path : String
  line_number : Nat
  line_content : String
  relative_path : String
deriving DecidableEq, Repr

/-- The filesystem-dependent path functions used by the scan strategies:
`FileManager._normalize_path` (composed with the surrounding
`try/except` that falls back to the stripped path) and `os.path.relpath`. -/
structure PathEnv where
  normalize : String → String
  relpath : String → String → String

/-- The trivial path environment: normalization returns its input and
`relpath` returns the path unchanged. -/
def idPathEnv : PathEnv :=
  { normalize := fun s => s, relpath := fun p _ => p }

/-- The `while True: pos = content.find(search_bytes, start) ...
start = pos + 1` loop of both scan strategies, as the list of match
positions it visits.  Each iteration moves `start` past `content.length`
or increases it by at least one, so `content.length + 1 - start`
iterations always suffice; the `fuel` argument makes that explicit and
the wrapper `scanPositions` supplies it. -/
def scanPosGo (content pat : List Byte) : Nat → Nat → List Nat
  | 0, _ => []
  | fuel + 1, start =>
    match bytesFind content pat start with
    | none => []
    | some pos => pos :: scanPosGo content pat fuel (pos + 1)

/-- All match positions found by the scan loop starting at `start`. -/
def scanPositions (content pat : List Byte) (start : Nat) : List Nat :=
  scanPosGo content pat (content.length + 1 - start) start

/-- The result dict appended for a match at position `pos`, with line
fields computed on `buffer` (the original bytes in `_search_with_read`,
the case-folded bytes in `_search_with_mmap`). -/
def occurrenceAt (env : PathEnv) (file_path : String) (buffer : List Byte)
    (base_directory : String) (pos : Nat) : Occurrence :=
  { file_path := file_path
    line_number := lineNumberOf buffer pos
    line_content := lineContentOf buffer pos
    relative_path := env.relpath file_path base_directory }

/-- `_search_with_read`: search the (optionally case-folded) copy of the
file bytes, but slice `line_content` out of the original bytes. -/
def searchWithRead (env : PathEnv) (file_path : String) (content : List Byte)
    (search_bytes : List Byte) (ignore_case : Bool) (base_directory : String) :
    List Occurrence :=
  let content_to_search := if ignore_case then bytesLower content else content
  (scanPositions content_to_search search_bytes 0).map
    (occurrenceAt env file_path content base_directory)

/-- `_search_with_mmap`: the path is first normalized
(`FileManager._normalize_path(file_path.strip())`, falling back to the
stripped path when that raises — both are covered by `env.normalize`);
`mmap.mmap` raises `ValueError` on an empty file, which the bare `except`
turns into an empty result; and when `ignore_case` is set, `content` is
the case-folded buffer `mm[:].lower()`, from which the line fields
(including `line_content`) are then sliced. -/
def searchWithMmap (env : PathEnv) (file_path : String) (content : List Byte)
    (search_bytes : List Byte) (ignore_case : Bool) (base_directory : String) :
    List Occurrence :=
  let fp := env.normalize (pyStrip file_path)
  if content.length = 0 then []
  else
    let c := if ignore_case then bytesLower content else content
    (scanPositions c search_bytes 0).map (occurrenceAt env fp c base_directory)

/-- Helper for bracket classes in glob patterns: split a character list at
the first `]`, returning the part before it and the part after. -/
def scanClose : List Char → Option (List Char × List Char)
  | [] => none
  | ']' :: t => some ([], t)
  | c :: t => (scanClose t).map (fun pr => (c :: pr.1, pr.2))

/-- Parse the body of a `[...]` glob class (the characters after the `[`):
returns (negated, class characters, rest of pattern), or `none` when the
bracket is unterminated (then `fnmatch` treats `[` as a literal).  A `]`
directly after `[` or `[!` is a literal class member. -/
def splitBracket (l : List Char) : Option (Bool × List Char × List Char) :=
  match l with
  | '!' :: t =>
    (match t with
     | ']' :: t2 => (scanClose t2).map (fun pr => (true, ']' :: pr.1, pr.2))
     | _ => (scanClose t).map (fun pr => (true, pr.1, pr.2)))
  | ']' :: t2 => (scanClose t2).map (fun pr => (false, ']' :: pr.1, pr.2))
  | _ => (scanClose l).map (fun pr => (false, pr.1, pr.2))

/-- Membership of `c` in a glob character class, with `a-b` ranges
(a `-` at either edge is a literal, as in the regex `fnmatch` builds). -/
def classMatch : List Char → Char → Bool
  | [], _ => false
  | a :: '-' :: b :: t, c => (a ≤ c ∧ c ≤ b) || classMatch t c
  | a :: t, c => a == c || classMatch t c

/-- The glob matching loop behind `fnmatch.fnmatch`: `*` matches any run,
`?` any single character, `[...]` a character class, everything else
itself; the whole name must match.  Every recursive call shrinks
`pattern.length + name.length`, so that sum plus one is enough fuel; the
wrapper `globMatch` supplies it. -/
def globGo : Nat → List Char → List Char → Bool
  | 0, _, _ => false
  | fuel + 1, p, s =>
    match p, s with
    | [], [] => true
    | [], _ :: _ => false
    | '*' :: ps, s =>
      globGo fuel ps s ||
        (match s with
         | [] => false
         | _ :: s2 => globGo fuel ('*' :: ps) s2)
    | '?' :: ps, _ :: s2 => globGo fuel ps s2
    | '[' :: ps, s =>
      (match splitBracket ps with
       | some (neg, cls, rest) =>
         (match s with
          | c :: s2 => (classMatch cls c != neg) && globGo fuel rest s2
          | [] => false)
       | none =>
         (match s with
          | '[' :: s2 => globGo fuel ps s2
          | _ => false))
    | pc :: ps, c :: s2 => pc == c && globGo fuel ps s2
    | _ :: _, [] => false

/-- Full glob match of `name` against `pattern`. -/
def globMatch (pattern name : List Char) : Bool :=
  globGo (pattern.length + name.length + 1) pattern name

/-- Python `fnmatch.fnmatch(name, pattern)`; on POSIX `os.path.normcase` is
the identity, so this is a case-sensitive glob match (the source lowercases
both sides itself where it wants case-insensitive matching). -/
def fnmatch (name pattern : String) : Bool :=
  globMatch pattern.data name.data

/-- Python `os.path.basename` on a path given as its list of components. -/
def basenameOf (path : List String) : String :=
  path.getLastD ""

/-- Python `os.path.join` chaining on POSIX: components joined by `/`. -/
def joinPath (path : List String) : String :=
  String.intercalate "/" path

/-- The answer `os.path.isdir` / `os.path.isfile` give for a path at the
moment `_should_ignore_path` queries them. -/
inductive PathStatus where
  | dir
  | file
  | missing
deriving DecidableEq, Repr

/-- Whether `os.path.isdir(path)` is true for this status. -/
def pathIsDir : PathStatus → Bool
  | .dir => true
  | _ => false

/-- Whether `os.path.isfile(path)` is true for this status. -/
def pathIsFile : PathStatus → Bool
  | .file => true
  | _ => false

/-- The custom-pattern block at the end of `_should_ignore_path`: each
pattern is matched (lowercased) against the basename, and also, wrapped in
`*...*`, against the whole path.  Python's `if custom_ignore_patterns:`
treats `None` and the empty list alike, so `[]` models both. -/
def customPatternsMatch (path : List String) (custom_ignore_patterns : List String) : Bool :=
  custom_ignore_patterns.any (fun pattern =>
    fnmatch (strLower (basenameOf path)) (strLower pattern) ||
    fnmatch (strLower (joinPath path)) ("*" ++ strLower pattern ++ "*"))

/-- `_should_ignore_path(path, ignore_dirs, ignore_files,
custom_ignore_patterns)`.  The source decides directory/file status by
querying the filesystem (`os.path.isdir` / `os.path.isfile`); the answer
the filesystem gives at that moment is the `status` argument here.
Directory names are compared exactly against `ignore_dirs`; file names are
glob-matched (lowercased) against `ignore_files`; custom patterns apply to
any path.  The Python sets are modelled as lists (only membership is
used). -/
def shouldIgnorePath (path : List String) (status : PathStatus)
    (ignore_dirs ignore_files custom_ignore_patterns : List String) : Bool :=
  let path_name := basenameOf path
  if pathIsDir status && ignore_dirs.contains path_name then true
  else if pathIsFile status &&
      ignore_files.any (fun pattern => fnmatch (strLower path_name) (strLower pattern)) then
    true
  else customPatternsMatch path custom_ignore_patterns

/-- A filesystem subtree as `os.walk` sees it: named files with byte
contents and named directories with children. -/
inductive Entry where
  | file (name : String) (content : List Byte)
  | dir (name : String) (children : List Entry)
deriving Repr

/-- The ignore/filter configuration assembled by `search_string_in_files`
before the walk. -/
structure WalkCfg where
  file_pattern : String
  max_file_size_bytes : Nat
  ignore_dirs : List String
  ignore_files : List String
  custom_ignore_patterns : List String

/-- The per-directory body of the `os.walk` loop, applied to the directory
at `root` with children `entries`: if the directory itself should be
ignored the iteration is skipped (`continue`), otherwise each file that is
not ignored, matches `file_pattern`, and is within the size bound
(`os.path.getsize` is the byte length) joins the work list. -/
def hereFilesOf (cfg : WalkCfg) (root : List String) (entries : List Entry) :
    List (List String × List Byte) :=
  if shouldIgnorePath root .dir cfg.ignore_dirs cfg.ignore_files cfg.custom_ignore_patterns then
    []
  else
    entries.filterMap (fun e =>
      match e with
      | .file name content =>
        if shouldIgnorePath (root ++ [name]) .file cfg.ignore_dirs cfg.ignore_files
            cfg.custom_ignore_patterns then none
        else if fnmatch name cfg.file_pattern ∧ content.length ≤ cfg.max_file_size_bytes then
          some (root ++ [name], content)
        else none
      | .dir _ _ => none)

mutual
/-- Recursion of the walk into one child entry of the directory at `root`:
the `dirs[:] = [d for d in dirs if not _should_ignore_path(...)]` pruning
removes ignored child directories before `os.walk` descends, so an ignored
child contributes nothing at all. -/
def walkChild (cfg : WalkCfg) (root : List String) : Entry → List (List String × List Byte)
  | .file _ _ => []
  | .dir name children =>
    if shouldIgnorePath (root ++ [name]) .dir cfg.ignore_dirs cfg.ignore_files
        cfg.custom_ignore_patterns then []
    else hereFilesOf cfg (root ++ [name]) children ++ walkList cfg (root ++ [name]) children

/-- Walk recursion over the list of children of the directory at `root`. -/
def walkList (cfg : WalkCfg) (root : List String) : List Entry → List (List String × List Byte)
  | [] => []
  | e :: rest => walkChild cfg root e ++ walkList cfg root rest
end

/-- The whole top-down `os.walk(directory)` file-collection loop of
`search_string_in_files`: the work list of (path, contents) pairs.  Note
that the pruning check applies only to child directories yielded in
`dirs`; the top directory itself is yielded first without that check (only
its own files are skipped via the `continue` when it is ignored). -/
def walkDirectory (cfg : WalkCfg) (root : List String) (entries : List Entry) :
    List (List String × List Byte) :=
  hereFilesOf cfg root entries ++ walkList cfg root entries

/-- `DEFAULT_IGNORE_DIRS` from `system_agent/config.py` (a Python set;
only membership is used, so a list models it). -/
def DEFAULT_IGNORE_DIRS : List String :=
  ["venv", "env", ".venv", ".env", "virtualenv", "ENV", "env.bak", "venv.bak",
   "node_modules", "__pycache__", ".pytest_cache", "pip-wheel-metadata", "site-packages",
   "dist", "build", "egg-info", ".eggs", "wheels",
   ".git", ".hg", ".svn", ".bzr", "_darcs",
   ".vscode", ".idea", ".vs", ".atom", ".sublime-project", ".sublime-workspace",
   ".DS_Store", "Thumbs.db", "__MACOSX",
   "logs", "log", "tmp", "temp", ".tmp", ".temp",
   "_build", "docs/_build", "site", ".docusaurus",
   ".mypy_cache", ".tox", ".nox", ".coverage", "htmlcov", ".nyc_output", "coverage",
   ".sass-cache", ".parcel-cache", ".next", ".nuxt"]

/-- `DEFAULT_IGNORE_FILES` from `system_agent/config.py`. -/
def DEFAULT_IGNORE_FILES : List String :=
  ["*.pyc", "*.pyo", "*.pyd", "*.class", "*.dll", "*.exe", "*.o", "*.a", "*.lib", "*.so",
   "*.zip", "*.tar", "*.tar.gz", "*.rar", "*.7z",
   "*.jpg", "*.jpeg", "*.png", "*.gif", "*.bmp", "*.ico", "*.svg", "*.webp",
   "*.mp4", "*.avi", "*.mov", "*.mp3", "*.wav", "*.flac",
   "*.pdf", "*.doc", "*.docx", "*.xls", "*.xlsx", "*.ppt", "*.pptx",
   "*.db", "*.sqlite", "*.sqlite3",
   "package-lock.json", "yarn.lock", "Pipfile.lock", "poetry.lock",
   "*.min.js", "*.min.css", ".gitignore", ".gitkeep"]

/-- `DISABLE_SMART_IGNORE` from `system_agent/config.py`. -/
def DISABLE_SMART_IGNORE : Bool := false

/-- The directory ignore set assembled by `search_string_in_files`:
defaults plus additions, or additions alone when smart ignore is off
(set union modelled by append; only membership is used). -/
def effectiveIgnoreDirs (disable_smart_ignore : Bool) (additional_ignore_dirs : List String) :
    List String :=
  if disable_smart_ignore then additional_ignore_dirs
  else DEFAULT_IGNORE_DIRS ++ additional_ignore_dirs

/-- The file ignore set assembled by `search_string_in_files`. -/
def effectiveIgnoreFiles (disable_smart_ignore : Bool) (additional_ignore_files : List String) :
    List String :=
  if disable_smart_ignore then additional_ignore_files
  else DEFAULT_IGNORE_FILES ++ additional_ignore_files

/-- `search_bytes = search_string.encode("utf-8", errors="ignore")`,
lowercased once by the caller when `ignore_case` is set. -/
def searchBytesOf (search_string : String) (ignore_case : Bool) : List Byte :=
  let b := encodeUtf8 search_string
  if ignore_case then bytesLower b else b

/-- The per-work-item strategy dispatch of the inner `search_file`:
memory mapping is used when enabled and the recorded size exceeds 1024
bytes, otherwise the whole-file read. -/
def searchFile (env : PathEnv) (file_path : String) (content : List Byte)
    (search_bytes : List Byte) (ignore_case use_memory_mapping : Bool)
    (base_directory : String) : List Occurrence :=
  if use_memory_mapping ∧ content.length > 1024 then
    searchWithMmap env file_path content search_bytes ignore_case base_directory
  else
    searchWithRead env file_path content search_bytes ignore_case base_directory

/-- The walk configuration `search_string_in_files` assembles before
collecting files (its "Setup ignore patterns" block plus the size bound
`max_file_size_bytes = max_file_size_mb * 1024 * 1024` and the file
pattern). -/
def walkCfgOf (file_pattern : String) (max_file_size_mb : Nat) (disable_smart_ignore : Bool)
    (custom_ignore_patterns additional_ignore_dirs additional_ignore_files : List String) :
    WalkCfg :=
  { file_pattern := file_pattern
    max_file_size_bytes := max_file_size_mb * 1024 * 1024
    ignore_dirs := effectiveIgnoreDirs disable_smart_ignore additional_ignore_dirs
    ignore_files := effectiveIgnoreFiles disable_smart_ignore additional_ignore_files
    custom_ignore_patterns := custom_ignore_patterns }

/-- `FileManager.search_string_in_files`: encode and optionally case-fold
the pattern, assemble the ignore sets, collect the work list by walking
the tree rooted at `rootPath` (whose children are `rootEntries`), and scan
every collected file.  The thread pool sized by `max_workers` only
schedules the per-file scans and concatenates their result lists as
futures complete; it never changes which occurrences exist, so the model
scans the work list in order (`max_workers` is threaded through for the
wrapper claims). -/
def searchStringInFiles (env : PathEnv) (search_string : String)
    (rootPath : List String) (rootEntries : List Entry)
    (file_pattern : String) (ignore_case : Bool) (max_workers : Nat)
    (max_file_size_mb : Nat) (use_memory_mapping disable_smart_ignore : Bool)
    (custom_ignore_patterns additional_ignore_dirs additional_ignore_files : List String) :
    List Occurrence :=
  ((walkDirectory
      (walkCfgOf file_pattern max_file_size_mb disable_smart_ignore
        custom_ignore_patterns additional_ignore_dirs additional_ignore_files)
      rootPath rootEntries).map (fun fc =>
    searchFile env (joinPath fc.1) fc.2 (searchBytesOf search_string ignore_case)
      ignore_case use_memory_mapping (joinPath rootPath))).flatten

/-- A Python value as far as the wrapper's `max_workers` validation needs
to distinguish: `json.loads` turns a JSON integer into `int`, a JSON
boolean into `bool` — and Python's `isinstance(x, int)` is true for both,
`bool` being a subclass of `int` with `True == 1`, `False == 0` — and
anything else into some other type. -/
inductive PyVal where
  | vint (n : Int)
  | vbool (b : Bool)
  | vother
deriving DecidableEq, Repr

/-- Python `isinstance(v, int)`. -/
def isinstanceInt : PyVal → Bool
  | .vint _ => true
  | .vbool _ => true
  | .vother => false

/-- The integer a `PyVal` stands for in arithmetic comparisons
(only meaningful when `isinstanceInt` holds). -/
def pyIntValue : PyVal → Int
  | .vint n => n
  | .vbool b => if b then 1 else 0
  | .vother => 0

/-- The wrapper's `max_workers` handling: `options.get("max_workers", 4)`
followed by `if not isinstance(mw, int) or mw < 1: mw = 4`.  The result is
the worker count actually handed to `ThreadPoolExecutor`. -/
def effectiveMaxWorkers (mw : Option PyVal) : Int :=
  let v := mw.getD (.vint 4)
  if isinstanceInt v = false ∨ pyIntValue v < 1 then 4 else pyIntValue v

/-- The parsed options payload, reduced to the one field the wrapper
validates numerically; the remaining keys are passed to the engine
unchanged (list-typed keys are coerced to `[]` when mistyped, which no
claim here inspects). -/
structure ParsedOptions where
  max_workers : Option PyVal
deriving Repr

/-- What `__search_string_in_files_wrapper` does before (or instead of)
invoking the engine: either an early error return, or a call to
`search_string_in_files` with the validated arguments. -/
inductive WrapperOutcome where
  | errorMsg (msg : String)
  | search (search_string : String) (directory : Option String) (max_workers : Int)
deriving DecidableEq, Repr

/-- Whether `sep` occurs in `s` starting at index `i`. -/
def charsMatchAt (s sep : List Char) (i : Nat) : Bool :=
  (s.drop i).take sep.length == sep

/-- First index at which `sep` occurs in `s`. -/
def charsFind (s sep : List Char) : Option Nat :=
  (List.range' 0 (s.length + 1)).find? (fun i => charsMatchAt s sep i)

/-- Python `str.split(sep)` for a nonempty separator: split at each
non-overlapping occurrence, left to right.  Each step consumes at least
one character, so `s.length + 1` steps suffice; `pySplit` supplies that
fuel. -/
def pySplitGo (sep : List Char) : Nat → List Char → List (List Char)
  | 0, s => [s]
  | fuel + 1, s =>
    match charsFind s sep with
    | none => [s]
    | some i => s.take i :: pySplitGo sep fuel (s.drop (i + sep.length))

/-- Python `str.split(sep)` (nonempty `sep`). -/
def pySplit (s sep : String) : List String :=
  (pySplitGo sep.data (s.data.length + 1) s.data).map String.mk

/-- `parts = input_str.split("|||")`. -/
def partsOf (input_str : String) : List String :=
  pySplit input_str "|||"

/-- The `directory` argument extracted from the parts (stripped; empty or
absent becomes `None`). -/
def directoryOf (parts : List String) : Option String :=
  if parts.length > 1 ∧ pyStrip (parts.getD 1 "") ≠ "" then some (pyStrip (parts.getD 1 ""))
  else none

/-- The options JSON text extracted from the parts (stripped; empty or
absent becomes the empty-object text). -/
def optionsStrOf (parts : List String) : String :=
  if parts.length > 2 ∧ pyStrip (parts.getD 2 "") ≠ "" then pyStrip (parts.getD 2 "")
  else "\x7b\x7d"

/-- The request-validation front of `__search_string_in_files_wrapper`:
reject a missing/blank search string, then malformed options JSON
(`json.loads` and the message of the exception it raises are the
`parse_json` parameter), then a supplied directory that does not exist
(`os.path.exists` is the `path_exists` parameter) — each before the engine
is invoked and before any worker thread is created.  (The source wraps the
directory name in quotes inside the message; the quotes are elided
here.) -/
def searchWrapperFront (parse_json : String → Except String ParsedOptions)
    (path_exists : String → Bool) (input_str : String) : WrapperOutcome :=
  if (partsOf input_str).length < 1 ∨ pyStrip ((partsOf input_str).getD 0 "") = "" then
    .errorMsg "Error: Search string is required"
  else
    match parse_json (optionsStrOf (partsOf input_str)) with
    | .error e => .errorMsg ("Error: Invalid JSON in options: " ++ e)
    | .ok options =>
      match directoryOf (partsOf input_str) with
      | some d =>
        if path_exists d = false then
          .errorMsg ("Error: Directory " ++ d ++ " does not exist")
        else .search (pyStrip ((partsOf input_str).getD 0 "")) (some d)
          (effectiveMaxWorkers options.max_workers)
      | none => .search (pyStrip ((partsOf input_str).getD 0 "")) none
          (effectiveMaxWorkers options.max_workers)

/-- Modelled from the spec wording of the line-text invariant (the claim
to be compared with what the strategies return): the exact text on the
matched line in the source file — the bytes of the original buffer between
the previous newline and the next — decoded, minus surrounding
whitespace. -/
def exactMatchedLineText (content : List Byte) (pos : Nat) : String :=
  pyStrip (decodeStr ((content.take (lineEndOf content pos)).drop (lineStartOf content pos)))

/-! Supporting lemmas. -/

/-- A successful `find?` over `range'` finds the least index in range
satisfying the predicate. -/
theorem find?_range'_first (p : Nat → Bool) :
    ∀ (n s pos : Nat), (List.range' s n).find? p = some pos →
      s ≤ pos ∧ pos < s + n ∧ p pos = true ∧ ∀ y, s ≤ y → y < pos → p y = false := by
  intro n
  induction n with
  | zero => intro s pos h; simp [List.range'] at h
  | succ n ih =>
    intro s pos h
    rw [List.range'_succ] at h
    by_cases hs : p s
    · rw [List.find?_cons_of_pos _ hs] at h
      cases h
      exact ⟨Nat.le_refl s, by omega, hs, fun y hy1 hy2 => by omega⟩
    · rw [List.find?_cons_of_neg _ hs] at h
      obtain ⟨h1, h2, h3, h4⟩ := ih (s + 1) pos h
      refine ⟨by omega, by omega, h3, ?_⟩
      intro y hy1 hy2
      rcases Nat.eq_or_lt_of_le hy1 with rfl | hlt
      · exact Bool.not_eq_true _ ▸ by simpa using hs
      · exact h4 y (by omega) hy2

/-- Filtering `range'` by a predicate whose least satisfier in range is
`pos` yields `pos` followed by the filtered tail of the range. -/
theorem filter_range'_first (p : Nat → Bool) :
    ∀ (n s pos : Nat), s ≤ pos → pos < s + n → p pos = true →
      (∀ y, s ≤ y → y < pos → p y = false) →
      (List.range' s n).filter p = pos :: (List.range' (pos + 1) (s + n - (pos + 1))).filter p := by
  intro n
  induction n with
  | zero => intro s pos h1 h2 _ _; omega
  | succ n ih =>
    intro s pos h1 h2 h3 h4
    rw [List.range'_succ, List.filter_cons]
    by_cases hsp : s = pos
    · subst hsp
      have hn : s + (n + 1) - (s + 1) = n := by omega
      simp [h3, hn]
    · have hps : p s = false := h4 s (Nat.le_refl s) (by omega)
      have hrw := ih (s + 1) pos (by omega) (by omega) h3 (fun y hy1 hy2 => h4 y (by omega) hy2)
      have hn : s + 1 + n - (pos + 1) = s + (n + 1) - (pos + 1) := by omega
      simp [hps, hrw, hn]

/-- With enough fuel, the scan loop returns exactly the in-order list of
all positions at which the pattern matches, from `start` on. -/
theorem scanPosGo_eq_filter (content pat : List Byte) :
    ∀ (fuel s : Nat), content.length + 1 - s ≤ fuel →
      scanPosGo content pat fuel s =
        (List.range' s (content.length + 1 - s)).filter (fun i => matchesAt content pat i) := by
  intro fuel
  induction fuel with
  | zero =>
    intro s hs
    have h0 : content.length + 1 - s = 0 := by omega
    rw [h0]
    simp [scanPosGo]
  | succ fuel ih =>
    intro s hs
    rw [scanPosGo]
    cases h : bytesFind content pat s with
    | none =>
      dsimp only
      unfold bytesFind at h
      have hnone : ∀ x ∈ List.range' s (content.length + 1 - s),
          ¬ ((fun i => matchesAt content pat i) x = true) := by
        intro x hx
        simpa using List.find?_eq_none.mp h x hx
      exact (List.filter_eq_nil_iff.mpr hnone).symm
    | some pos =>
      dsimp only
      unfold bytesFind at h
      obtain ⟨h1, h2, h3, h4⟩ := find?_range'_first _ _ _ _ h
      have hfuel : content.length + 1 - (pos + 1) ≤ fuel := by omega
      rw [ih (pos + 1) hfuel, filter_range'_first _ _ _ _ h1 h2 h3 h4]
      have hn : s + (content.length + 1 - s) - (pos + 1) = content.length + 1 - (pos + 1) := by
        omega
      rw [hn]

/-- The scan loop (with the fuel `scanPositions` supplies) visits exactly
the positions where the pattern matches, in increasing order. -/
theorem scanPositions_eq_filter (content pat : List Byte) (s : Nat) :
    scanPositions content pat s =
      (List.range' s (content.length + 1 - s)).filter (fun i => matchesAt content pat i) :=
  scanPosGo_eq_filter content pat _ s (Nat.le_refl _)

/-- Match positions are strictly increasing. -/
theorem scanPositions_pairwise_lt (content pat : List Byte) (s : Nat) :
    List.Pairwise (· < ·) (scanPositions content pat s) := by
  rw [scanPositions_eq_filter]
  exact List.Pairwise.sublist (List.filter_sublist _) (List.pairwise_lt_range' _ _)

/-- A later position is never on an earlier line. -/
theorem lineNumberOf_mono (content : List Byte) (i j : Nat) (h : i ≤ j) :
    lineNumberOf content i ≤ lineNumberOf content j := by
  unfold lineNumberOf
  have htake : content.take i = (content.take j).take i := by
    rw [List.take_take, Nat.min_eq_left h]
  rw [htake]
  exact Nat.add_le_add_right ((List.take_sublist _ _).count_le _) 1

/-- Case-folding preserves length. -/
theorem bytesLower_length (content : List Byte) : (bytesLower content).length = content.length :=
  List.length_map _ _

/-- The per-byte case-folding map sends exactly the newline byte to the
newline byte. -/
theorem lowerByte_eq_ten (b : Nat) :
    ((if 65 ≤ b ∧ b ≤ 90 then b + 32 else b) = 10) ↔ b = 10 := by
  by_cases h : 65 ≤ b ∧ b ≤ 90
  · rw [if_pos h]
    constructor
    · intro h2
      omega
    · intro h2
      omega
  · rw [if_neg h]

/-- Case-folding moves no newline: searching for the newline byte in the
case-folded buffer finds the same index as in the original. -/
theorem findByteFrom_bytesLower (content : List Byte) (s : Nat) :
    findByteFrom (bytesLower content) 10 s = findByteFrom content 10 s := by
  unfold findByteFrom bytesLower
  rw [List.length_map]
  have hfun : (fun i => ((content.map (fun b => if 65 ≤ b ∧ b ≤ 90 then b + 32 else b)).drop i).head?
        == some 10) = (fun i => (content.drop i).head? == some 10) := by
    funext i
    rw [← List.map_drop, List.head?_map]
    cases hd : (content.drop i).head? with
    | none => rfl
    | some b =>
      simp only [Option.map_some']
      rw [Bool.eq_iff_iff]
      simp only [beq_iff_eq, Option.some.injEq]
      exact lowerByte_eq_ten b
  rw [hfun]

/-- `str.split` never returns an empty list. -/
theorem pySplitGo_ne_nil (sep : List Char) (fuel : Nat) (s : List Char) :
    pySplitGo sep fuel s ≠ [] := by
  cases fuel with
  | zero => simp [pySplitGo]
  | succ fuel =>
    rw [pySplitGo]
    cases charsFind s sep <;> simp

/-- `parts = input_str.split("|||")` always has a first element. -/
theorem partsOf_length_pos (input_str : String) : 0 < (partsOf input_str).length := by
  unfold partsOf pySplit
  rw [List.length_map]
  exact List.length_pos.mpr (pySplitGo_ne_nil _ _ _)

/-- Every file the per-directory body collects is a direct child of that
directory. -/
theorem hereFilesOf_shape (cfg : WalkCfg) (root : List String) (entries : List Entry)
    (pc : List String × List Byte) (h : pc ∈ hereFilesOf cfg root entries) :
    ∃ f, pc.1 = root ++ [f] := by
  unfold hereFilesOf at h
  split at h
  · simp at h
  · obtain ⟨e, _, hfe⟩ := List.mem_filterMap.mp h
    cases e with
    | file name content =>
      dsimp only at hfe
      split at hfe
      · simp at hfe
      · split at hfe
        · cases hfe
          exact ⟨name, rfl⟩
        · simp at hfe
    | dir _ _ => simp at hfe

/-- A directory whose basename is in the ignore set is flagged by the
ignore predicate. -/
theorem shouldIgnorePath_dir_of_mem (p : List String) (n : String)
    (ignore_dirs ignore_files custom : List String) (h : n ∈ ignore_dirs) :
    shouldIgnorePath (p ++ [n]) .dir ignore_dirs ignore_files custom = true := by
  unfold shouldIgnorePath basenameOf
  have hb : (p ++ [n]).getLastD "" = n := by
    rw [List.getLastD_concat]
  simp [hb, pathIsDir, h]

mutual
/-- Walking into one (kept) child entry only ever reaches files whose
path below `root` avoids every ignored directory name. -/
theorem walkChild_below_root (cfg : WalkCfg) (d : String) (root : List String) (e : Entry)
    (hd : d ∈ cfg.ignore_dirs) :
    ∀ pc ∈ walkChild cfg root e, ∃ q f, pc.1 = root ++ q ++ [f] ∧ d ∉ q := by
  cases e with
  | file name content =>
    intro pc hpc
    simp [walkChild] at hpc
  | dir name children =>
    intro pc hpc
    rw [walkChild] at hpc
    split at hpc
    · simp at hpc
    · rename_i hnig
      have hname : name ≠ d := by
        intro heq
        exact hnig (heq ▸ shouldIgnorePath_dir_of_mem root d _ _ _ hd)
      rcases List.mem_append.mp hpc with hh | ht
      · obtain ⟨f, hf⟩ := hereFilesOf_shape _ _ _ _ hh
        exact ⟨[name], f, hf, by simpa using fun heq => hname heq.symm⟩
      · obtain ⟨q, f, hqf, hdq⟩ := walkList_below_root cfg d (root ++ [name]) children hd pc ht
        refine ⟨name :: q, f, ?_, ?_⟩
        · rw [hqf]; simp
        · intro hmem
          rcases List.mem_cons.mp hmem with heq | hq
          · exact hname heq.symm
          · exact hdq hq

/-- Walking the (pruned) children of the directory at `root` only reaches
files whose path below `root` avoids every ignored directory name. -/
theorem walkList_below_root (cfg : WalkCfg) (d : String) (root : List String)
    (es : List Entry) (hd : d ∈ cfg.ignore_dirs) :
    ∀ pc ∈ walkList cfg root es, ∃ q f, pc.1 = root ++ q ++ [f] ∧ d ∉ q := by
  cases es with
  | nil =>
    intro pc hpc
    simp [walkList] at hpc
  | cons e rest =>
    intro pc hpc
    rw [walkList] at hpc
    rcases List.mem_append.mp hpc with h1 | h2
    · exact walkChild_below_root cfg d root e hd pc h1
    · exact walkList_below_root cfg d root rest hd pc h2
end

/-! Claim theorems. -/

/-- C1 (refuted by the code): the memory-mapped strategy does not always
produce the same occurrences as the whole-file-read strategy for the same
file bytes, pattern, case flag and search root.  With ignore_case set, on
the bytes "AB\n" searched for "a", the memory-mapped strategy reports the
case-folded line text "ab" where the read strategy reports the original
"AB", because it slices `line_content` out of the lowercased buffer. -/
theorem mmap_and_read_strategies_disagree :
    searchWithMmap idPathEnv "f" [65, 66, 10] [97] true "." ≠
      searchWithRead idPathEnv "f" [65, 66, 10] [97] true "." ∧
    (searchWithMmap idPathEnv "f" [65, 66, 10] [97] true ".").map Occurrence.line_content =
      ["ab"] ∧
    (searchWithRead idPathEnv "f" [65, 66, 10] [97] true ".").map Occurrence.line_content =
      ["AB"] :=
  ⟨by decide, by decide, by decide⟩

/-- C2 (refuted by the code): under the memory-mapped strategy with
ignore_case set, line_content is not the exact text of the matched line
with surrounding whitespace removed: for file bytes "AB\n" and pattern
"a" the sole match is at byte offset 0, the exact matched-line text is
"AB", yet the strategy reports the case-folded "ab". -/
theorem mmap_line_content_not_exact_text :
    scanPositions (bytesLower [65, 66, 10]) [97] 0 = [0] ∧
    exactMatchedLineText [65, 66, 10] 0 = "AB" ∧
    (searchWithMmap idPathEnv "f" [65, 66, 10] [97] true ".").map Occurrence.line_content =
      ["ab"] ∧
    ("ab" : String) ≠ "AB" :=
  ⟨by decide, by decide, by decide, by decide⟩

/-- C3 as stated is false: with smart filtering on (so node_modules is in
the effective ignore set), searching a tree whose root directory is itself
named node_modules still returns files from its subdirectories — the
pruning check applies only to child directories met during the walk, never
to the search root itself. -/
theorem ignored_root_directory_still_searched :
    "node_modules" ∈ effectiveIgnoreDirs false [] ∧
    (searchStringInFiles idPathEnv "hit" ["node_modules"]
        [Entry.dir "src" [Entry.file "a.txt" [104, 105, 116]]]
        "*" true 4 100 true false [] [] []).map Occurrence.file_path =
      ["node_modules/src/a.txt"] :=
  ⟨by decide, by decide⟩

/-- C3 amended: for every directory name in the effective ignore set, no
file under a subtree rooted at a directory of that name strictly below the
search root is ever collected (the walk prunes such directories before
descending); every collected file sits at root/q/f with no component of q
an ignored name.  The search root itself is exempt from pruning: when its
own name is ignored only its direct files are skipped, as
`ignored_root_directory_still_searched` shows. -/
theorem no_descent_into_ignored_subdirectories (cfg : WalkCfg) (d : String)
    (root : List String) (entries : List Entry) (hd : d ∈ cfg.ignore_dirs) :
    ∀ pc ∈ walkDirectory cfg root entries, ∃ q f, pc.1 = root ++ q ++ [f] ∧ d ∉ q := by
  intro pc hpc
  rcases List.mem_append.mp (by simpa [walkDirectory] using hpc) with h1 | h2
  · obtain ⟨f, hf⟩ := hereFilesOf_shape _ _ _ _ h1
    exact ⟨[], f, by simpa using hf, by simp⟩
  · exact walkList_below_root cfg d root entries hd pc h2

/-- Witness for the amended C3 theorem at a concrete configuration and
tree: the only collected file is the root's direct child y. -/
theorem no_descent_into_ignored_subdirectories_witness :
    ∃ q f, (["r", "y"] : List String) = ["r"] ++ q ++ [f] ∧ "node_modules" ∉ q :=
  no_descent_into_ignored_subdirectories
    { file_pattern := "*", max_file_size_bytes := 100, ignore_dirs := ["node_modules"],
      ignore_files := [], custom_ignore_patterns := [] }
    "node_modules" ["r"]
    [Entry.dir "node_modules" [Entry.file "x" [97]], Entry.file "y" [97]]
    (by decide) (["r", "y"], [97]) (by decide)

/-- C4: the scan loop resumes one byte after each reported match, so every
shifted start position is considered: the positions returned are exactly
the positions at which the pattern matches, in order; in particular
searching for "aa" in "aaaa" yields exactly 3 occurrences, at byte
offsets 0, 1 and 2, under either strategy. -/
theorem overlapping_matches_found :
    (∀ (content pat : List Byte) (s : Nat),
      scanPositions content pat s =
        (List.range' s (content.length + 1 - s)).filter (fun i => matchesAt content pat i)) ∧
    scanPositions (encodeUtf8 "aaaa") (encodeUtf8 "aa") 0 = [0, 1, 2] ∧
    (searchWithRead idPathEnv "f" (encodeUtf8 "aaaa") (encodeUtf8 "aa") false ".").length = 3 ∧
    (searchWithMmap idPathEnv "f" (encodeUtf8 "aaaa") (encodeUtf8 "aa") false ".").length = 3 :=
  ⟨fun content pat s => scanPositions_eq_filter content pat s, by decide, by decide, by decide⟩

/-- C5: for one file, under either strategy and any case flag, the match
positions visited are strictly increasing by byte offset, and hence the
emitted occurrence list has non-decreasing line numbers. -/
theorem per_file_results_ordered (env : PathEnv) (fp base : String)
    (content search_bytes : List Byte) (ignore_case : Bool) :
    List.Pairwise (· < ·)
      (scanPositions (if ignore_case then bytesLower content else content) search_bytes 0) ∧
    List.Pairwise (· ≤ ·)
      ((searchWithRead env fp content search_bytes ignore_case base).map
        Occurrence.line_number) ∧
    List.Pairwise (· ≤ ·)
      ((searchWithMmap env fp content search_bytes ignore_case base).map
        Occurrence.line_number) := by
  have key : ∀ (buffer : List Byte) (fpath : String) (positions : List Nat),
      List.Pairwise (· < ·) positions →
      List.Pairwise (· ≤ ·)
        ((positions.map (occurrenceAt env fpath buffer base)).map Occurrence.line_number) := by
    intro buffer fpath positions hpw
    rw [List.map_map]
    exact List.Pairwise.map _
      (fun a b hab => lineNumberOf_mono buffer a b (Nat.le_of_lt hab)) hpw
  refine ⟨scanPositions_pairwise_lt _ _ _, ?_, ?_⟩
  · simp only [searchWithRead]
    exact key _ _ _ (scanPositions_pairwise_lt _ _ _)
  · by_cases h0 : content.length = 0
    · simp [searchWithMmap, h0]
    · simp only [searchWithMmap, if_neg h0]
      exact key _ _ _ (scanPositions_pairwise_lt _ _ _)

/-- C6: a file whose size is exactly max_file_size_mb·1024·1024 bytes
joins the work list and is scanned by the dispatched strategy, while a
file one byte larger is excluded from the work list and the search over it
returns no occurrences at all. -/
theorem max_file_size_boundary (env : PathEnv) (search_string : String)
    (root : List String) (name : String) (c c' : List Byte)
    (file_pattern : String) (ignore_case use_memory_mapping disable_smart_ignore : Bool)
    (max_workers max_file_size_mb : Nat)
    (custom_ignore_patterns additional_ignore_dirs additional_ignore_files : List String)
    (hroot : shouldIgnorePath root .dir
      (effectiveIgnoreDirs disable_smart_ignore additional_ignore_dirs)
      (effectiveIgnoreFiles disable_smart_ignore additional_ignore_files)
      custom_ignore_patterns = false)
    (hfile : shouldIgnorePath (root ++ [name]) .file
      (effectiveIgnoreDirs disable_smart_ignore additional_ignore_dirs)
      (effectiveIgnoreFiles disable_smart_ignore additional_ignore_files)
      custom_ignore_patterns = false)
    (hpat : fnmatch name file_pattern = true)
    (hsz : c.length = max_file_size_mb * 1024 * 1024)
    (hsz' : c'.length = max_file_size_mb * 1024 * 1024 + 1) :
    walkDirectory (walkCfgOf file_pattern max_file_size_mb disable_smart_ignore
        custom_ignore_patterns additional_ignore_dirs additional_ignore_files)
      root [Entry.file name c] = [(root ++ [name], c)] ∧
    searchStringInFiles env search_string root [Entry.file name c] file_pattern ignore_case
        max_workers max_file_size_mb use_memory_mapping disable_smart_ignore
        custom_ignore_patterns additional_ignore_dirs additional_ignore_files =
      searchFile env (joinPath (root ++ [name])) c (searchBytesOf search_string ignore_case)
        ignore_case use_memory_mapping (joinPath root) ∧
    walkDirectory (walkCfgOf file_pattern max_file_size_mb disable_smart_ignore
        custom_ignore_patterns additional_ignore_dirs additional_ignore_files)
      root [Entry.file name c'] = [] ∧
    searchStringInFiles env search_string root [Entry.file name c'] file_pattern ignore_case
        max_workers max_file_size_mb use_memory_mapping disable_smart_ignore
        custom_ignore_patterns additional_ignore_dirs additional_ignore_files = [] := by
  have hle : c.length ≤ max_file_size_mb * 1024 * 1024 := Nat.le_of_eq hsz
  have hnle : ¬ (c'.length ≤ max_file_size_mb * 1024 * 1024) := by omega
  have h1 : walkDirectory (walkCfgOf file_pattern max_file_size_mb disable_smart_ignore
      custom_ignore_patterns additional_ignore_dirs additional_ignore_files)
      root [Entry.file name c] = [(root ++ [name], c)] := by
    simp [walkDirectory, hereFilesOf, walkList, walkChild, walkCfgOf, hroot, hfile, hpat, hle]
  have h3 : walkDirectory (walkCfgOf file_pattern max_file_size_mb disable_smart_ignore
      custom_ignore_patterns additional_ignore_dirs additional_ignore_files)
      root [Entry.file name c'] = [] := by
    simp [walkDirectory, hereFilesOf, walkList, walkChild, walkCfgOf, hroot, hfile, hpat, hnle]
  refine ⟨h1, ?_, h3, ?_⟩
  · simp only [searchStringInFiles]
    rw [h1]
    simp
  · simp only [searchStringInFiles]
    rw [h3]
    simp

/-- Witness for the C6 theorem at a concrete instance (smart ignore off,
empty ignore sets, size bound 0 MB, an empty file at the bound and a
one-byte file over it). -/
theorem max_file_size_boundary_witness :
    walkDirectory (walkCfgOf "*" 0 true [] [] []) ["r"] [Entry.file "a.txt" []] =
      [(["r", "a.txt"], [])] ∧
    searchStringInFiles idPathEnv "x" ["r"] [Entry.file "a.txt" []] "*" true 4 0 true true
        [] [] [] =
      searchFile idPathEnv (joinPath (["r"] ++ ["a.txt"])) [] (searchBytesOf "x" true)
        true true (joinPath ["r"]) ∧
    walkDirectory (walkCfgOf "*" 0 true [] [] []) ["r"] [Entry.file "a.txt" [65]] = [] ∧
    searchStringInFiles idPathEnv "x" ["r"] [Entry.file "a.txt" [65]] "*" true 4 0 true true
        [] [] [] = [] :=
  max_file_size_boundary idPathEnv "x" ["r"] "a.txt" [] [65] "*" true true true 4 0 [] [] []
    (by decide) (by decide) (by decide) (by decide) (by decide)

/-- C7: max_workers handling never raises — a missing key or a value that
is not a Python int falls back to 4; an int value below 1 (including 0)
falls back to 4; an int value of at least 1 is used as given.  (Python
counts booleans as ints: true is the int 1 and is used, false is the int 0
and falls back; both cases are instances of the int clauses below.) -/
theorem max_workers_normalization :
    effectiveMaxWorkers none = 4 ∧
    (∀ v, isinstanceInt v = false → effectiveMaxWorkers (some v) = 4) ∧
    (∀ v, isinstanceInt v = true → pyIntValue v < 1 → effectiveMaxWorkers (some v) = 4) ∧
    (∀ v, isinstanceInt v = true → 1 ≤ pyIntValue v →
      effectiveMaxWorkers (some v) = pyIntValue v) := by
  refine ⟨rfl, ?_, ?_, ?_⟩
  · intro v hv
    simp [effectiveMaxWorkers, hv]
  · intro v _ h1
    simp [effectiveMaxWorkers, h1]
  · intro v hv h1
    simp only [effectiveMaxWorkers, Option.getD_some]
    rw [if_neg]
    rintro (hfalse | hlt)
    · rw [hv] at hfalse
      exact absurd hfalse (by simp)
    · omega

/-- Witness for the C7 theorem: 0 falls back to 4, a non-int falls back
to 4, and 7 is used as given. -/
theorem max_workers_normalization_witness :
    effectiveMaxWorkers (some (PyVal.vint 0)) = 4 ∧
    effectiveMaxWorkers (some PyVal.vother) = 4 ∧
    effectiveMaxWorkers (some (PyVal.vint 7)) = 7 :=
  ⟨max_workers_normalization.2.2.1 (PyVal.vint 0) rfl (by decide),
   max_workers_normalization.2.1 PyVal.vother rfl,
   max_workers_normalization.2.2.2 (PyVal.vint 7) rfl (by decide)⟩

/-- C8: a blank search string, malformed options JSON, or a supplied
directory that does not exist each make the wrapper return an error
outcome before the engine runs — the outcome is `errorMsg`, never the
`search` outcome that invokes `search_string_in_files` and its thread
pool, and the two outcomes are distinct. -/
theorem request_errors_fail_fast (parse_json : String → Except String ParsedOptions)
    (path_exists : String → Bool) (input_str : String) :
    (pyStrip ((partsOf input_str).getD 0 "") = "" →
      searchWrapperFront parse_json path_exists input_str =
        .errorMsg "Error: Search string is required") ∧
    (∀ e, pyStrip ((partsOf input_str).getD 0 "") ≠ "" →
      parse_json (optionsStrOf (partsOf input_str)) = .error e →
      searchWrapperFront parse_json path_exists input_str =
        .errorMsg ("Error: Invalid JSON in options: " ++ e)) ∧
    (∀ options d, pyStrip ((partsOf input_str).getD 0 "") ≠ "" →
      parse_json (optionsStrOf (partsOf input_str)) = .ok options →
      directoryOf (partsOf input_str) = some d → path_exists d = false →
      searchWrapperFront parse_json path_exists input_str =
        .errorMsg ("Error: Directory " ++ d ++ " does not exist")) ∧
    (∀ msg s dir mw, WrapperOutcome.errorMsg msg ≠ WrapperOutcome.search s dir mw) := by
  refine ⟨?_, ?_, ?_, ?_⟩
  · intro h
    unfold searchWrapperFront
    rw [if_pos (Or.inr h)]
  · intro e hne hpe
    unfold searchWrapperFront
    have hc : ¬ ((partsOf input_str).length < 1 ∨
        pyStrip ((partsOf input_str).getD 0 "") = "") := by
      rintro (h1 | h2)
      · exact absurd (partsOf_length_pos input_str) (by omega)
      · exact hne h2
    rw [if_neg hc, hpe]
  · intro options d hne hok hdir hpe
    unfold searchWrapperFront
    have hc : ¬ ((partsOf input_str).length < 1 ∨
        pyStrip ((partsOf input_str).getD 0 "") = "") := by
      rintro (h1 | h2)
      · exact absurd (partsOf_length_pos input_str) (by omega)
      · exact hne h2
    rw [if_neg hc, hok]
    dsimp only
    rw [hdir]
    dsimp only
    rw [hpe, if_pos rfl]
  · intro msg s dir mw
    simp

/-- Witness for the C8 theorem: the three error branches at concrete
inputs. -/
theorem request_errors_fail_fast_witness :
    searchWrapperFront (fun _ => .ok ⟨none⟩) (fun _ => true) " " =
      .errorMsg "Error: Search string is required" ∧
    searchWrapperFront (fun _ => .error "bad") (fun _ => true) "x|||d|||zzz" =
      .errorMsg ("Error: Invalid JSON in options: " ++ "bad") ∧
    searchWrapperFront (fun _ => .ok ⟨none⟩) (fun _ => false) "x|||d" =
      .errorMsg ("Error: Directory " ++ "d" ++ " does not exist") :=
  ⟨(request_errors_fail_fast (fun _ => .ok ⟨none⟩) (fun _ => true) " ").1 (by decide),
   (request_errors_fail_fast (fun _ => .error "bad") (fun _ => true) "x|||d|||zzz").2.1
     "bad" (by decide) rfl,
   (request_errors_fail_fast (fun _ => .ok ⟨none⟩) (fun _ => false) "x|||d").2.2.1
     ⟨none⟩ "d" (by decide) rfl (by decide) rfl⟩

/-- C9: for a path that is neither a file nor a directory at check time,
the ignore predicate consults only the caller-supplied custom patterns:
its value does not depend on the directory-name set or the file-glob set
at all, and equals the custom-pattern check alone. -/
theorem missing_path_only_custom_patterns (path : List String)
    (d1 f1 d2 f2 custom : List String) :
    shouldIgnorePath path .missing d1 f1 custom =
      shouldIgnorePath path .missing d2 f2 custom ∧
    shouldIgnorePath path .missing d1 f1 custom = customPatternsMatch path custom := by
  constructor <;> simp [shouldIgnorePath, pathIsDir, pathIsFile]

/-- C10: when a match lies on the final line of a buffer with no newline
at or after it, both strategies take the line end to be the end of the
buffer and still emit the occurrence, whose line_content spans from just
after the last preceding newline (or the buffer start) to the end of the
buffer — computed on the original bytes by the read strategy and on its
(possibly case-folded) buffer by the memory-mapped strategy. -/
theorem final_line_without_newline_reported (env : PathEnv) (fp base : String)
    (content pat : List Byte) (ignore_case : Bool) (pos : Nat)
    (hpat : pat ≠ [])
    (hpos : pos ∈ scanPositions (if ignore_case then bytesLower content else content) pat 0)
    (hnl : findByteFrom content 10 pos = none) :
    lineEndOf content pos = content.length ∧
    occurrenceAt env fp content base pos ∈
      searchWithRead env fp content pat ignore_case base ∧
    (occurrenceAt env fp content base pos).line_content =
      pyStrip (decodeStr (content.drop (lineStartOf content pos))) ∧
    occurrenceAt env (env.normalize (pyStrip fp))
        (if ignore_case then bytesLower content else content) base pos ∈
      searchWithMmap env fp content pat ignore_case base ∧
    lineEndOf (if ignore_case then bytesLower content else content) pos =
      (if ignore_case then bytesLower content else content).length := by
  have hE : lineEndOf content pos = content.length := by
    unfold lineEndOf
    rw [hnl]
  have hmatch : matchesAt (if ignore_case then bytesLower content else content) pat pos
      = true := by
    have hmem := hpos
    rw [scanPositions_eq_filter] at hmem
    exact (List.mem_filter.mp hmem).2
  have hcs_len : (if ignore_case then bytesLower content else content).length
      = content.length := by
    by_cases hic : ignore_case
    · simp [hic, bytesLower_length]
    · simp [hic]
  have hlen : ¬ (content.length = 0) := by
    intro h0
    have hnil : (if ignore_case then bytesLower content else content) = [] :=
      List.length_eq_zero.mp (by rw [hcs_len, h0])
    rw [hnil] at hmatch
    unfold matchesAt at hmatch
    simp at hmatch
    exact hpat hmatch
  have hnl' : findByteFrom (if ignore_case then bytesLower content else content) 10 pos
      = none := by
    by_cases hic : ignore_case
    · simp [hic, findByteFrom_bytesLower, hnl]
    · simp [hic, hnl]
  refine ⟨hE, ?_, ?_, ?_, ?_⟩
  · simp only [searchWithRead]
    exact List.mem_map_of_mem _ hpos
  · show lineContentOf content pos = _
    unfold lineContentOf
    rw [hE, List.take_length]
  · simp only [searchWithMmap, if_neg hlen]
    exact List.mem_map_of_mem _ hpos
  · unfold lineEndOf
    rw [hnl']

/-- Witness for the C10 theorem at a concrete buffer "hi" (no trailing
newline) with pattern "h" matching at position 0. -/
theorem final_line_without_newline_reported_witness :
    lineEndOf [104, 105] 0 = ([104, 105] : List Byte).length ∧
    occurrenceAt idPathEnv "f" [104, 105] "." 0 ∈
      searchWithRead idPathEnv "f" [104, 105] [104] false "." ∧
    (occurrenceAt idPathEnv "f" [104, 105] "." 0).line_content =
      pyStrip (decodeStr (([104, 105] : List Byte).drop (lineStartOf [104, 105] 0))) ∧
    occurrenceAt idPathEnv (idPathEnv.normalize (pyStrip "f"))
        (if false then bytesLower [104, 105] else [104, 105]) "." 0 ∈
      searchWithMmap idPathEnv "f" [104, 105] [104] false "." ∧
    lineEndOf (if false then bytesLower [104, 105] else [104, 105]) 0 =
      (if false then bytesLower ([104, 105] : List Byte) else [104, 105]).length :=
  final_line_without_newline_reported idPathEnv "f" "." [104, 105] [104] false 0
    (by decide) (by decide) (by decide)

end SystemAgent
